import Mathlib

/-!
Verification of the ByteMeCarbon source-to-source optimizer.

This file gives a shallow embedding of the optimizer pipeline
(optimizer.py together with the rule modules under rules/) over a model of
the Python abstract syntax tree, and proves or refutes the frozen claims
about it.  Every definition is translated from the repository source;
definitions whose names start with spec are translations of the
specification wording, used only to compare the claim against the code.
-/

namespace ByteMeCarbon

/-- Literal constant values carried by an ast.Constant node.  The model
covers integers, booleans, strings and None; the identity tests of the
source (value is True, value is False) distinguish the boolean singletons
from integers, which the separate boolC constructor reflects. -/
inductive Const where
  | intC (n : Int)
  | boolC (b : Bool)
  | strC (s : String)
  | noneC
deriving DecidableEq, Repr

/-- Binary operators (ast.Add, ast.Sub, ast.Mult, ast.FloorDiv). -/
inductive BOp where
  | add | sub | mult | floordiv
deriving DecidableEq, Repr

/-- Comparison operators (ast.Eq, ast.NotEq, ast.Lt, ast.LtE, ast.Gt,
ast.GtE, ast.Is, ast.IsNot). -/
inductive CmpOp where
  | eq | ne | lt | le | gt | ge | isOp | isNotOp
deriving DecidableEq, Repr

/-- Boolean operation kinds (ast.And, ast.Or). -/
inductive BoolK where
  | andK | orK
deriving DecidableEq, Repr

/-- Unary operators (ast.Not, ast.USub). -/
inductive UOp where
  | notU | negU
deriving DecidableEq, Repr

/-- Expressions of the Python abstract syntax tree, restricted to the node
kinds the optimizer rules inspect or build.  A Compare node carries the
lists of operators and comparators exactly as ast.Compare does; a Call
keyword with a none key models keyword unpacking (two asterisks). -/
inductive Expr where
  | constE (c : Const)
  | name (id : String)
  | binop (left : Expr) (op : BOp) (right : Expr)
  | unaryop (op : UOp) (operand : Expr)
  | boolop (op : BoolK) (values : List Expr)
  | compare (left : Expr) (ops : List CmpOp) (comparators : List Expr)
  | call (func : Expr) (args : List Expr) (keywords : List (Option String × Expr))
  | attributeE (value : Expr) (attr : String)
  | subscript (value : Expr) (slice : Expr)
  | tuple (elts : List Expr)
  | listE (elts : List Expr)
  | listComp (elt : Expr) (target : Expr) (iter : Expr)
  | starred (value : Expr)
deriving Repr

/-- Statements of the Python abstract syntax tree.  Import aliases are
pairs of the imported name and the optional as-name, as in ast.alias. -/
inductive Stmt where
  | functionDef (name : String) (args : List String) (body : List Stmt)
      (decorators : List Expr)
  | classDef (name : String) (body : List Stmt)
  | ifS (test : Expr) (body : List Stmt) (orelse : List Stmt)
  | whileS (test : Expr) (body : List Stmt) (orelse : List Stmt)
  | forS (target : Expr) (iter : Expr) (body : List Stmt) (orelse : List Stmt)
  | ret (value : Option Expr)
  | assign (targets : List Expr) (value : Expr)
  | augAssign (target : Expr) (op : BOp) (value : Expr)
  | exprS (value : Expr)
  | pass
  | continueS
  | impS (names : List (String × Option String))
  | impFrom (module : String) (names : List (String × Option String))
deriving Repr

/-- String repetition, as the Python multiplication of a string by an
integer (a negative count gives the empty string). -/
def strRepeat (s : String) : Int → String
  | .ofNat n => String.join (List.replicate n s)
  | .negSucc _ => ""

/-- Numeric view of a constant: Python arithmetic treats booleans as the
integers 0 and 1; strings and None do not coerce. -/
def Const.toIntC : Const → Option Int
  | .intC n => some n
  | .boolC b => some (if b then 1 else 0)
  | _ => none

/-- Evaluation of a binary operation on two constants, modelling the
sandboxed eval call of rules/constant_folding.py on the operators of the
model: integer (and boolean-as-integer) arithmetic, string concatenation,
string repetition, and floor division.  A none result models the exception
path (type mismatch or division by zero). -/
def evalBinOp (a : Const) (op : BOp) (b : Const) : Option Const :=
  match op with
  | .add =>
    match a, b with
    | .strC s, .strC t => some (.strC (s ++ t))
    | _, _ =>
      match a.toIntC, b.toIntC with
      | some x, some y => some (.intC (x + y))
      | _, _ => none
  | .sub =>
    match a.toIntC, b.toIntC with
    | some x, some y => some (.intC (x - y))
    | _, _ => none
  | .mult =>
    match a, b with
    | .strC s, _ =>
      match b.toIntC with
      | some y => some (.strC (strRepeat s y))
      | none => none
    | _, .strC t =>
      match a.toIntC with
      | some x => some (.strC (strRepeat t x))
      | none => none
    | _, _ =>
      match a.toIntC, b.toIntC with
      | some x, some y => some (.intC (x * y))
      | _, _ => none
  | .floordiv =>
    match a.toIntC, b.toIntC with
    | some x, some y => if y = 0 then none else some (.intC (Int.fdiv x y))
    | _, _ => none

/-! Structural equality of model nodes.  The source compares code blocks
through ast.dump string equality (conditional_optimization.py,
method are_equivalent); on the model this is exactly structural equality
of the trees, implemented here as boolean functions. -/

mutual

def beqExpr : Expr → Expr → Bool
  | .constE a, .constE b => a == b
  | .name a, .name b => a == b
  | .binop l1 o1 r1, .binop l2 o2 r2 => beqExpr l1 l2 && o1 == o2 && beqExpr r1 r2
  | .unaryop o1 e1, .unaryop o2 e2 => o1 == o2 && beqExpr e1 e2
  | .boolop k1 v1, .boolop k2 v2 => k1 == k2 && beqExprList v1 v2
  | .compare l1 o1 c1, .compare l2 o2 c2 =>
      beqExpr l1 l2 && o1 == o2 && beqExprList c1 c2
  | .call f1 a1 k1, .call f2 a2 k2 =>
      beqExpr f1 f2 && beqExprList a1 a2 && beqKwList k1 k2
  | .attributeE v1 a1, .attributeE v2 a2 => beqExpr v1 v2 && a1 == a2
  | .subscript v1 s1, .subscript v2 s2 => beqExpr v1 v2 && beqExpr s1 s2
  | .tuple e1, .tuple e2 => beqExprList e1 e2
  | .listE e1, .listE e2 => beqExprList e1 e2
  | .listComp e1 t1 i1, .listComp e2 t2 i2 =>
      beqExpr e1 e2 && beqExpr t1 t2 && beqExpr i1 i2
  | .starred v1, .starred v2 => beqExpr v1 v2
  | _, _ => false

def beqExprList : List Expr → List Expr → Bool
  | [], [] => true
  | e :: es, f :: fs => beqExpr e f && beqExprList es fs
  | _, _ => false

def beqKwList : List (Option String × Expr) → List (Option String × Expr) → Bool
  | [], [] => true
  | (k, e) :: es, (l, f) :: fs => k == l && beqExpr e f && beqKwList es fs
  | _, _ => false

end

mutual

def beqStmt : Stmt → Stmt → Bool
  | .functionDef n1 a1 b1 d1, .functionDef n2 a2 b2 d2 =>
      n1 == n2 && a1 == a2 && beqStmtList b1 b2 && beqExprList d1 d2
  | .classDef n1 b1, .classDef n2 b2 => n1 == n2 && beqStmtList b1 b2
  | .ifS t1 b1 e1, .ifS t2 b2 e2 =>
      beqExpr t1 t2 && beqStmtList b1 b2 && beqStmtList e1 e2
  | .whileS t1 b1 e1, .whileS t2 b2 e2 =>
      beqExpr t1 t2 && beqStmtList b1 b2 && beqStmtList e1 e2
  | .forS tg1 i1 b1 e1, .forS tg2 i2 b2 e2 =>
      beqExpr tg1 tg2 && beqExpr i1 i2 && beqStmtList b1 b2 && beqStmtList e1 e2
  | .ret none, .ret none => true
  | .ret (some v1), .ret (some v2) => beqExpr v1 v2
  | .assign t1 v1, .assign t2 v2 => beqExprList t1 t2 && beqExpr v1 v2
  | .augAssign t1 o1 v1, .augAssign t2 o2 v2 =>
      beqExpr t1 t2 && o1 == o2 && beqExpr v1 v2
  | .exprS v1, .exprS v2 => beqExpr v1 v2
  | .pass, .pass => true
  | .continueS, .continueS => true
  | .impS n1, .impS n2 => n1 == n2
  | .impFrom m1 n1, .impFrom m2 n2 => m1 == m2 && n1 == n2
  | _, _ => false

def beqStmtList : List Stmt → List Stmt → Bool
  | [], [] => true
  | s :: ss, t :: ts => beqStmt s t && beqStmtList ss ts
  | _, _ => false

end

/-! Analyzer (analyzer.py).  The NameCollector visitor records the id of
every Name node, whatever its context, over the whole tree. -/

mutual

def namesExpr : Expr → List String
  | .constE _ => []
  | .name i => [i]
  | .binop l _ r => namesExpr l ++ namesExpr r
  | .unaryop _ e => namesExpr e
  | .boolop _ vs => namesExprList vs
  | .compare l _ cs => namesExpr l ++ namesExprList cs
  | .call f args kws => namesExpr f ++ namesExprList args ++ namesKwList kws
  | .attributeE v _ => namesExpr v
  | .subscript v s => namesExpr v ++ namesExpr s
  | .tuple es => namesExprList es
  | .listE es => namesExprList es
  | .listComp e t i => namesExpr e ++ namesExpr t ++ namesExpr i
  | .starred v => namesExpr v

def namesExprList : List Expr → List String
  | [] => []
  | e :: es => namesExpr e ++ namesExprList es

def namesKwList : List (Option String × Expr) → List String
  | [] => []
  | (_, e) :: es => namesExpr e ++ namesKwList es

end

mutual

def namesStmt : Stmt → List String
  | .functionDef _ _ body decs => namesStmtList body ++ namesExprList decs
  | .classDef _ body => namesStmtList body
  | .ifS t body orelse => namesExpr t ++ namesStmtList body ++ namesStmtList orelse
  | .whileS t body orelse => namesExpr t ++ namesStmtList body ++ namesStmtList orelse
  | .forS tg it body orelse =>
      namesExpr tg ++ namesExpr it ++ namesStmtList body ++ namesStmtList orelse
  | .ret none => []
  | .ret (some v) => namesExpr v
  | .assign ts v => namesExprList ts ++ namesExpr v
  | .augAssign t _ v => namesExpr t ++ namesExpr v
  | .exprS v => namesExpr v
  | .pass => []
  | .continueS => []
  | .impS _ => []
  | .impFrom _ _ => []

def namesStmtList : List Stmt → List String
  | [] => []
  | s :: ss => namesStmt s ++ namesStmtList ss

end

/-- The collect_used_names entry point of analyzer.py: all Name ids
referenced anywhere in the module. -/
def collect_used_names (m : List Stmt) : List String := namesStmtList m

/-! Call collector (rules/unused_functions.py, FunctionCallCollector): the
id of the callee of every Call node whose func is a plain Name. -/

mutual

def callsExpr : Expr → List String
  | .constE _ => []
  | .name _ => []
  | .binop l _ r => callsExpr l ++ callsExpr r
  | .unaryop _ e => callsExpr e
  | .boolop _ vs => callsExprList vs
  | .compare l _ cs => callsExpr l ++ callsExprList cs
  | .call f args kws =>
      (match f with
       | .name i => [i]
       | _ => []) ++ callsExpr f ++ callsExprList args ++ callsKwList kws
  | .attributeE v _ => callsExpr v
  | .subscript v s => callsExpr v ++ callsExpr s
  | .tuple es => callsExprList es
  | .listE es => callsExprList es
  | .listComp e t i => callsExpr e ++ callsExpr t ++ callsExpr i
  | .starred v => callsExpr v

def callsExprList : List Expr → List String
  | [] => []
  | e :: es => callsExpr e ++ callsExprList es

def callsKwList : List (Option String × Expr) → List String
  | [] => []
  | (_, e) :: es => callsExpr e ++ callsKwList es

end

mutual

def callsStmt : Stmt → List String
  | .functionDef _ _ body decs => callsStmtList body ++ callsExprList decs
  | .classDef _ body => callsStmtList body
  | .ifS t body orelse => callsExpr t ++ callsStmtList body ++ callsStmtList orelse
  | .whileS t body orelse => callsExpr t ++ callsStmtList body ++ callsStmtList orelse
  | .forS tg it body orelse =>
      callsExpr tg ++ callsExpr it ++ callsStmtList body ++ callsStmtList orelse
  | .ret none => []
  | .ret (some v) => callsExpr v
  | .assign ts v => callsExprList ts ++ callsExpr v
  | .augAssign t _ v => callsExpr t ++ callsExpr v
  | .exprS v => callsExpr v
  | .pass => []
  | .continueS => []
  | .impS _ => []
  | .impFrom _ _ => []

def callsStmtList : List Stmt → List String
  | [] => []
  | s :: ss => callsStmt s ++ callsStmtList ss

end

/-- The collect_called_functions entry point of rules/unused_functions.py. -/
def collect_called_functions (m : List Stmt) : List String := callsStmtList m

/-! Generic traversal harness for a NodeTransformer that defines visitors
only for expression nodes: every statement keeps its shape and every
expression field is rewritten by the expression visitor. -/

mutual

def mapExprStmt (f : Expr → Expr) : Stmt → Stmt
  | .functionDef n a body decs =>
      .functionDef n a (mapExprStmtList f body) (List.map f decs)
  | .classDef n body => .classDef n (mapExprStmtList f body)
  | .ifS t b e => .ifS (f t) (mapExprStmtList f b) (mapExprStmtList f e)
  | .whileS t b e => .whileS (f t) (mapExprStmtList f b) (mapExprStmtList f e)
  | .forS tg it b e => .forS (f tg) (f it) (mapExprStmtList f b) (mapExprStmtList f e)
  | .ret none => .ret none
  | .ret (some v) => .ret (some (f v))
  | .assign ts v => .assign (List.map f ts) (f v)
  | .augAssign t op v => .augAssign (f t) op (f v)
  | .exprS v => .exprS (f v)
  | .pass => .pass
  | .continueS => .continueS
  | .impS ns => .impS ns
  | .impFrom md ns => .impFrom md ns

def mapExprStmtList (f : Expr → Expr) : List Stmt → List Stmt
  | [] => []
  | s :: ss => mapExprStmt f s :: mapExprStmtList f ss

end

namespace ConstantFolder

/-! ConstantFolder (rules/constant_folding.py): visit_BinOp folds children
first (generic_visit), then replaces a binary operation on two constant
operands with the evaluated constant; a failing evaluation keeps the node. -/

mutual

def visitExpr : Expr → Expr
  | .constE c => .constE c
  | .name i => .name i
  | .binop l op r =>
    let l2 := visitExpr l
    let r2 := visitExpr r
    match l2, r2 with
    | .constE a, .constE b =>
      match evalBinOp a op b with
      | some v => .constE v
      | none => .binop l2 op r2
    | _, _ => .binop l2 op r2
  | .unaryop op e => .unaryop op (visitExpr e)
  | .boolop k vs => .boolop k (visitExprList vs)
  | .compare l ops cs => .compare (visitExpr l) ops (visitExprList cs)
  | .call f args kws => .call (visitExpr f) (visitExprList args) (visitKwList kws)
  | .attributeE v a => .attributeE (visitExpr v) a
  | .subscript v s => .subscript (visitExpr v) (visitExpr s)
  | .tuple es => .tuple (visitExprList es)
  | .listE es => .listE (visitExprList es)
  | .listComp e t i => .listComp (visitExpr e) (visitExpr t) (visitExpr i)
  | .starred v => .starred (visitExpr v)

def visitExprList : List Expr → List Expr
  | [] => []
  | e :: es => visitExpr e :: visitExprList es

def visitKwList : List (Option String × Expr) → List (Option String × Expr)
  | [] => []
  | (k, e) :: es => (k, visitExpr e) :: visitKwList es

end

def visit (m : List Stmt) : List Stmt := mapExprStmtList visitExpr m

end ConstantFolder

namespace DeadCodeRemover

/-! DeadCodeRemover (rules/dead_code.py): visit_If visits children first,
then replaces a conditional whose test is the constant True by its body
list and one whose test is the constant False by its orelse list; other
tests keep the node.  Returning a list splices it into the parent block,
so an empty branch removes the statement. -/

mutual

def visitStmt : Stmt → List Stmt
  | .ifS t body orelse =>
    let b2 := visitList body
    let e2 := visitList orelse
    match t with
    | .constE (.boolC true) => b2
    | .constE (.boolC false) => e2
    | _ => [.ifS t b2 e2]
  | .functionDef n a body decs => [.functionDef n a (visitList body) decs]
  | .classDef n body => [.classDef n (visitList body)]
  | .whileS t b e => [.whileS t (visitList b) (visitList e)]
  | .forS tg it b e => [.forS tg it (visitList b) (visitList e)]
  | s => [s]

def visitList : List Stmt → List Stmt
  | [] => []
  | s :: ss => visitStmt s ++ visitList ss

end

end DeadCodeRemover

namespace ConditionalOptimizer

/-! ConditionalOptimizer (rules/conditional_optimization.py): visit_If
applies, in order, else-pass removal, nested-if fusion, boolean condition
simplification and duplicate-branch merging, after visiting children. -/

/-- Structural code-block equality, modelling the ast.dump comparison of
the method are_equivalent. -/
def are_equivalent (b1 b2 : List Stmt) : Bool := beqStmtList b1 b2

def remove_pass_else : Stmt → Stmt
  | .ifS t b [.pass] => .ifS t b []
  | s => s

def simplify_nested_if : Stmt → Stmt
  | .ifS t [.ifS t2 b2 []] [] => .ifS (.boolop .andK [t, t2]) b2 []
  | s => s

def simplify_boolean_condition : Stmt → Stmt
  | .ifS t b e =>
    let t2 :=
      match t with
      | .compare l [op] [.constE (.boolC true)] =>
          if op = .eq || op = .isOp then l else t
      | .compare l [op] [.constE (.boolC false)] =>
          if op = .eq || op = .isOp then .unaryop .notU l
          else if op = .ne then l else t
      | .unaryop .notU (.unaryop .notU x) => x
      | _ => t
    .ifS t2 b e
  | s => s

def merge_duplicate_branches : Stmt → List Stmt
  | node@(.ifS _ b e) =>
    match b, e with
    | _ :: _, _ :: _ => if are_equivalent b e then b else [node]
    | _, _ => [node]
  | s => [s]

mutual

def visitStmt : Stmt → List Stmt
  | .ifS t body orelse =>
    let node := Stmt.ifS t (visitList body) (visitList orelse)
    merge_duplicate_branches
      (simplify_boolean_condition (simplify_nested_if (remove_pass_else node)))
  | .functionDef n a body decs => [.functionDef n a (visitList body) decs]
  | .classDef n body => [.classDef n (visitList body)]
  | .whileS t b e => [.whileS t (visitList b) (visitList e)]
  | .forS tg it b e => [.forS tg it (visitList b) (visitList e)]
  | s => [s]

def visitList : List Stmt → List Stmt
  | [] => []
  | s :: ss => visitStmt s ++ visitList ss

end

end ConditionalOptimizer

namespace BooleanExpressionSimplifier

/-! BooleanExpressionSimplifier (rules/conditional_optimization.py):
visit_UnaryOp removes double negation and distributes De Morgan; and
visit_BoolOp walks the operand list, short-circuits on the constant False
in an AND or the constant True in an OR, and otherwise keeps only the
operands that are not Constant nodes, collapsing empty or singleton
results. -/

/-- Scan of the operand loop of visit_BoolOp: a none result models the
short-circuiting early return, a some result collects the operands that
survive the constant filter in order. -/
def scanValues (k : BoolK) : List Expr → Option (List Expr)
  | [] => some []
  | .constE c :: rest =>
    match k with
    | .andK => if c = .boolC false then none else scanValues k rest
    | .orK => if c = .boolC true then none else scanValues k rest
  | v :: rest => (scanValues k rest).map (fun l => v :: l)

/-- The visit_BoolOp step on an already-visited operand list. -/
def visit_BoolOp (k : BoolK) (values : List Expr) : Expr :=
  match scanValues k values with
  | none =>
    match k with
    | .andK => .constE (.boolC false)
    | .orK => .constE (.boolC true)
  | some kept =>
    match kept with
    | [v] => v
    | [] =>
      match k with
      | .andK => .constE (.boolC true)
      | .orK => .constE (.boolC false)
    | l => .boolop k l

/-- The visit_UnaryOp step on an already-visited operand. -/
def visit_UnaryOp (op : UOp) (operand : Expr) : Expr :=
  if op ≠ .notU then .unaryop op operand
  else
    match operand with
    | .unaryop .notU x => x
    | .boolop .andK vs => .boolop .orK (vs.map (fun v => .unaryop .notU v))
    | .boolop .orK vs => .boolop .andK (vs.map (fun v => .unaryop .notU v))
    | _ => .unaryop .notU operand

mutual

def visitExpr : Expr → Expr
  | .constE c => .constE c
  | .name i => .name i
  | .binop l op r => .binop (visitExpr l) op (visitExpr r)
  | .unaryop op e => visit_UnaryOp op (visitExpr e)
  | .boolop k vs => visit_BoolOp k (visitExprList vs)
  | .compare l ops cs => .compare (visitExpr l) ops (visitExprList cs)
  | .call f args kws => .call (visitExpr f) (visitExprList args) (visitKwList kws)
  | .attributeE v a => .attributeE (visitExpr v) a
  | .subscript v s => .subscript (visitExpr v) (visitExpr s)
  | .tuple es => .tuple (visitExprList es)
  | .listE es => .listE (visitExprList es)
  | .listComp e t i => .listComp (visitExpr e) (visitExpr t) (visitExpr i)
  | .starred v => .starred (visitExpr v)

def visitExprList : List Expr → List Expr
  | [] => []
  | e :: es => visitExpr e :: visitExprList es

def visitKwList : List (Option String × Expr) → List (Option String × Expr)
  | [] => []
  | (k, e) :: es => (k, visitExpr e) :: visitKwList es

end

def visit (m : List Stmt) : List Stmt := mapExprStmtList visitExpr m

end BooleanExpressionSimplifier

namespace GuardClauseOptimizer

/-- GuardClauseOptimizer (rules/conditional_optimization.py): its only
visitor performs generic_visit and returns the node unchanged, so the
whole pass is the identity on the tree. -/
def visit (m : List Stmt) : List Stmt := m

end GuardClauseOptimizer

/-- The optimize_conditionals entry point of
rules/conditional_optimization.py. -/
def optimize_conditionals (m : List Stmt) : List Stmt :=
  GuardClauseOptimizer.visit
    (BooleanExpressionSimplifier.visit (ConditionalOptimizer.visitList m))

namespace LoopOptimizer

/-! LoopOptimizer (rules/loop_optimization.py): visit_For removes loops
whose visited body and else-clause are both empty and otherwise applies
the range-over-len rewrite; visit_While removes an infinite loop whose
body is a single pass and replaces a while-False loop by its else
clause. -/

/-- The index-only-usage heuristic of the source: deliberately always
false (conservative, the rewrite never fires). -/
def check_index_only_usage (_body : List Stmt) (_loopVar : String)
    (_iterable : Expr) : Bool :=
  false

/-- Loop item name generation of the method get_item_name. -/
def get_item_name : Expr → String
  | .name nm => if nm.endsWith "s" && nm.length > 1 then nm.dropRight 1
                else nm ++ "_item"
  | _ => "item"

/-- Subscript replacement of the method replace_subscript_with_name:
simplified in the source to return the body unchanged. -/
def replace_subscript_with_name (body : List Stmt) (_iterable : Expr)
    (_oldIndex : String) (_newName : String) : List Stmt :=
  body

/-- The method optimize_range_len: every guard failure returns the node;
the rewrite branch is only reachable when check_index_only_usage answers
true. -/
def optimize_range_len (node : Stmt) : Stmt :=
  match node with
  | .forS target iter body orelse =>
    match iter with
    | .call (.name "range") [rangeArg] _rkws =>
      match rangeArg with
      | .call (.name "len") [iterable] _lkws =>
        match target with
        | .name loopVar =>
          if loopVar = "" then node
          else if check_index_only_usage body loopVar iterable then
            let newVarName := get_item_name iterable
            .forS (.name newVarName) iterable
              (replace_subscript_with_name body iterable loopVar newVarName)
              orelse
          else node
        | _ => node
      | _ => node
    | _ => node
  | s => s

mutual

def visitStmt : Stmt → List Stmt
  | .forS tg it body orelse =>
    let b2 := visitList body
    let e2 := visitList orelse
    if b2.isEmpty && e2.isEmpty then []
    else [optimize_range_len (.forS tg it b2 e2)]
  | .whileS t body orelse =>
    let b2 := visitList body
    let e2 := visitList orelse
    match t with
    | .constE (.boolC true) =>
      match b2 with
      | [.pass] => []
      | _ => [.whileS t b2 e2]
    | .constE (.boolC false) => e2
    | _ => [.whileS t b2 e2]
  | .functionDef n a body decs => [.functionDef n a (visitList body) decs]
  | .classDef n body => [.classDef n (visitList body)]
  | .ifS t b e => [.ifS t (visitList b) (visitList e)]
  | s => [s]

def visitList : List Stmt → List Stmt
  | [] => []
  | s :: ss => visitStmt s ++ visitList ss

end

end LoopOptimizer

namespace ListComprehensionOptimizer

/-! ListComprehensionOptimizer (rules/loop_optimization.py): visit_Module
scans consecutive top-level statement pairs and fuses an empty-list
initialization followed by a single-append loop into one comprehension
assignment. -/

/-- The method try_optimize_append_loop on a candidate statement pair. -/
def try_optimize_append_loop (stmt1 stmt2 : Stmt) : Option Stmt :=
  match stmt1 with
  | .assign [.name targetId] (.listE []) =>
    match stmt2 with
    | .forS ft fi [.exprS (.call (.attributeE (.name objId) "append") [arg] _kws)]
        _forelse =>
      if objId = targetId then
        some (.assign [.name targetId] (.listComp arg ft fi))
      else none
    | _ => none
  | _ => none

/-- The pairwise scan of visit_Module over the module body. -/
def scanBody : List Stmt → List Stmt
  | s1 :: s2 :: rest =>
    match try_optimize_append_loop s1 s2 with
    | some opt => opt :: scanBody rest
    | none => s1 :: scanBody (s2 :: rest)
  | l => l

def visit (m : List Stmt) : List Stmt := scanBody m

end ListComprehensionOptimizer

/-- The optimize_loops entry point of rules/loop_optimization.py. -/
def optimize_loops (m : List Stmt) : List Stmt :=
  ListComprehensionOptimizer.visit (LoopOptimizer.visitList m)

namespace FibonacciToIterative

/-! FibonacciToIterative (rules/recursion_optimization.py): visit_FunctionDef
checks, in order, that the function has exactly one parameter, at least two
body statements, that the first statement is a conditional whose body is a
single return of the parameter name, and that the second statement returns
an addition of two calls whose callees are both the function name.  The
test expression of the conditional and the call arguments are not
inspected. -/

/-- The shape checks of visit_FunctionDef; returns the parameter name when
they all pass. -/
def matchShape : Stmt → Option String
  | .functionDef fname [param] (first :: second :: _rest) _decs =>
    match first with
    | .ifS _t [.ret (some (.name bid))] _orelse =>
      if bid = param then
        match second with
        | .ret (some (.binop (.call (.name lf) _la _lk) .add
            (.call (.name rf) _ra _rk))) =>
          if lf = fname && rf = fname then some param else none
        | _ => none
      else none
    | _ => none
  | _ => none

/-- The iterative replacement body built by visit_FunctionDef. -/
def rewrite (fname : String) (args : List String) (param : String)
    (decs : List Expr) : Stmt :=
  .functionDef fname args
    [ .assign [.tuple [.name "a", .name "b"]]
        (.tuple [.constE (.intC 0), .constE (.intC 1)]),
      .forS (.name "i")
        (.call (.name "range") [.name param] [])
        [ .assign [.tuple [.name "a", .name "b"]]
            (.tuple [.name "b", .binop (.name "a") .add (.name "b")]) ]
        [],
      .ret (some (.name "a")) ]
    decs

mutual

def visitStmt : Stmt → Stmt
  | .functionDef n a body decs =>
    let node := Stmt.functionDef n a (visitList body) decs
    match matchShape node with
    | some param => rewrite n a param decs
    | none => node
  | .classDef n body => .classDef n (visitList body)
  | .ifS t b e => .ifS t (visitList b) (visitList e)
  | .whileS t b e => .whileS t (visitList b) (visitList e)
  | .forS tg it b e => .forS tg it (visitList b) (visitList e)
  | s => s

def visitList : List Stmt → List Stmt
  | [] => []
  | s :: ss => visitStmt s :: visitList ss

end

end FibonacciToIterative

namespace TailRecursionToIteration

/-! TailRecursionToIteration (rules/recursion_optimization.py):
visit_FunctionDef scans the top-level statements for a conditional with a
single-return branch and a tail-call return in the other branch (case A:
tail call in the else branch; case B: tail call in the then branch) or a
tail-call return immediately after the conditional (case C), then rewrites
the whole body into a while-True loop that returns the base value when the
recorded condition holds and otherwise reassigns all parameters to the
resolved call arguments. -/

/-- The helper is_tail_call_return, combined with the extraction of the
call expression: gives the call when the statement is a return of a call
to the given function name. -/
def tail_call_of (fname : String) : Stmt → Option Expr
  | .ret (some (.call (.name f) args kws)) =>
    if f = fname then some (.call (.name f) args kws) else none
  | _ => none

/-- The pattern scan of visit_FunctionDef over the body statements.  The
result carries the recorded condition, the base return value and the tail
call.  Note that in case B the recorded condition is still the test of the
conditional, although the tail call sits in the then branch. -/
def findPattern (fname : String) : List Stmt → Option (Expr × Option Expr × Expr)
  | [] => none
  | stmt :: rest =>
    match stmt with
    | .ifS test tb eb =>
      let leftRet : Option (Option Expr) :=
        match tb with
        | [.ret v] => some v
        | _ => none
      let rightRet : Option (Option Expr) :=
        match eb with
        | [.ret v] => some v
        | _ => none
      match leftRet, rightRet with
      | some lv, some rv =>
        match tail_call_of fname (.ret rv) with
        | some c => some (test, lv, c)
        | none =>
          match tail_call_of fname (.ret lv) with
          | some c => some (test, rv, c)
          | none =>
            match rest with
            | next :: _ =>
              match tail_call_of fname next with
              | some c => some (test, lv, c)
              | none => findPattern fname rest
            | [] => findPattern fname rest
      | some lv, none =>
        match rest with
        | next :: _ =>
          match tail_call_of fname next with
          | some c => some (test, lv, c)
          | none => findPattern fname rest
        | [] => findPattern fname rest
      | _, _ => findPattern fname rest
    | _ => findPattern fname rest

/-- Keyword map lookup of the recursive call (the dict comprehension keeps
the last binding of a repeated keyword). -/
def kwLookup (kws : List (Option String × Expr)) (pname : String) : Option Expr :=
  (kws.reverse.find? (fun kv => kv.1 == some pname)).map (fun kv => kv.2)

/-- Replacement expressions for every parameter: positional argument if
present, else keyword argument, else the current value of the parameter. -/
def resolveNewValues (params : List String) (posArgs : List Expr)
    (kws : List (Option String × Expr)) : List Expr :=
  params.enum.map (fun ip =>
    match posArgs[ip.1]? with
    | some e => e
    | none =>
      match kwLookup kws ip.2 with
      | some e => e
      | none => .name ip.2)

/-- The tuple assignment that atomically rebinds the parameters.  With
zero parameters the source would raise an IndexError on new_values[0];
that unreachable-under-the-pattern corner is modelled by an empty tuple. -/
def buildAssign (params : List String) (newValues : List Expr) : Stmt :=
  let targets := params.map (fun p => Expr.name p)
  let value :=
    match newValues with
    | v :: v2 :: rest => Expr.tuple (v :: v2 :: rest)
    | [v] => v
    | [] => Expr.tuple []
  let tgt :=
    match targets with
    | t :: t2 :: rest => [Expr.tuple (t :: t2 :: rest)]
    | l => l
  .assign tgt value

/-- The visit_FunctionDef step after children have been visited. -/
def visit_FunctionDef (node : Stmt) : Stmt :=
  match node with
  | .functionDef fname params body decs =>
    if body.isEmpty then node
    else
      match findPattern fname body with
      | none => node
      | some (condition, baseReturn, c) =>
        match c with
        | .call _f cargs ckws =>
          if ckws.any (fun kv => kv.1.isNone) then node
          else if cargs.any (fun a =>
              match a with
              | .starred _ => true
              | _ => false) then node
          else
            let newValues := resolveNewValues params cargs ckws
            let assignStmt := buildAssign params newValues
            let whileBody :=
              [Stmt.ifS condition [.ret baseReturn] [], assignStmt, Stmt.continueS]
            .functionDef fname params
              [.whileS (.constE (.boolC true)) whileBody []] decs
        | _ => node
  | s => s

mutual

def visitStmt : Stmt → Stmt
  | .functionDef n a body decs =>
    visit_FunctionDef (.functionDef n a (visitList body) decs)
  | .classDef n body => .classDef n (visitList body)
  | .ifS t b e => .ifS t (visitList b) (visitList e)
  | .whileS t b e => .whileS t (visitList b) (visitList e)
  | .forS tg it b e => .forS tg it (visitList b) (visitList e)
  | s => s

def visitList : List Stmt → List Stmt
  | [] => []
  | s :: ss => visitStmt s :: visitList ss

end

end TailRecursionToIteration

/-! RecursiveFunctionDetector (rules/recursion_optimization.py): a return
statement whose value is a call of the function name marks the function
tail recursive; any call of the function name anywhere marks it
recursive.  The call set reuses the collector above; the return-call set
is collected here. -/

mutual

def retCallsStmt : Stmt → List String
  | .ret v =>
    match v with
    | some (.call (.name f) _ _) => [f]
    | _ => []
  | .functionDef _ _ body _ => retCallsStmtList body
  | .classDef _ body => retCallsStmtList body
  | .ifS _ b e => retCallsStmtList b ++ retCallsStmtList e
  | .whileS _ b e => retCallsStmtList b ++ retCallsStmtList e
  | .forS _ _ b e => retCallsStmtList b ++ retCallsStmtList e
  | _ => []

def retCallsStmtList : List Stmt → List String
  | [] => []
  | s :: ss => retCallsStmt s ++ retCallsStmtList ss

end

/-! SideEffectDetector (rules/recursion_optimization.py): flags a call of
a plain name in the denylist, and an assignment or augmented assignment
whose target is an attribute or subscript access. -/

def side_effect_funcs : List String :=
  ["print", "input", "open", "write", "append",
   "remove", "pop", "clear", "update", "add"]

mutual

def sideExpr : Expr → Bool
  | .call f args kws =>
    (match f with
     | .name i => side_effect_funcs.contains i
     | _ => false) || sideExpr f || sideExprList args || sideKwList kws
  | .binop l _ r => sideExpr l || sideExpr r
  | .unaryop _ e => sideExpr e
  | .boolop _ vs => sideExprList vs
  | .compare l _ cs => sideExpr l || sideExprList cs
  | .attributeE v _ => sideExpr v
  | .subscript v s => sideExpr v || sideExpr s
  | .tuple es => sideExprList es
  | .listE es => sideExprList es
  | .listComp e t i => sideExpr e || sideExpr t || sideExpr i
  | .starred v => sideExpr v
  | _ => false

def sideExprList : List Expr → Bool
  | [] => false
  | e :: es => sideExpr e || sideExprList es

def sideKwList : List (Option String × Expr) → Bool
  | [] => false
  | (_, e) :: es => sideExpr e || sideKwList es

end

def isAttrOrSub : Expr → Bool
  | .attributeE _ _ => true
  | .subscript _ _ => true
  | _ => false

mutual

def sideStmt : Stmt → Bool
  | .assign ts v => ts.any isAttrOrSub || sideExprList ts || sideExpr v
  | .augAssign t _ v => isAttrOrSub t || sideExpr t || sideExpr v
  | .functionDef _ _ body decs => sideStmtList body || sideExprList decs
  | .classDef _ body => sideStmtList body
  | .ifS t b e => sideExpr t || sideStmtList b || sideStmtList e
  | .whileS t b e => sideExpr t || sideStmtList b || sideStmtList e
  | .forS tg it b e =>
    sideExpr tg || sideExpr it || sideStmtList b || sideStmtList e
  | .ret none => false
  | .ret (some v) => sideExpr v
  | .exprS v => sideExpr v
  | _ => false

def sideStmtList : List Stmt → Bool
  | [] => false
  | s :: ss => sideStmt s || sideStmtList ss

end

namespace MemoizationDecorator

/-! MemoizationDecorator (rules/recursion_optimization.py): after visiting
children, a function that already carries an lru_cache decorator is kept;
otherwise a function that is recursive and free of detected side effects
receives a functools.lru_cache(None) decorator at the front of its
decorator list, and the transformer records that the functools import is
needed. -/

def isLruDecorator : Expr → Bool
  | .name i => i == "lru_cache"
  | .attributeE _ a => a == "lru_cache"
  | .call (.name i) _ _ => i == "lru_cache"
  | .call (.attributeE _ a) _ _ => a == "lru_cache"
  | _ => false

mutual

def visitStmt : Stmt → Stmt × Bool
  | .functionDef n a body decs =>
    let r := visitList body
    let node := Stmt.functionDef n a r.1 decs
    if decs.any isLruDecorator then (node, r.2)
    else
      let isRec := (callsStmt node).contains n
      let isTail := (retCallsStmt node).contains n
      let hasSide := sideStmt node
      if isRec && !(isTail && !isRec) && !hasSide then
        (.functionDef n a r.1
          (Expr.call (.attributeE (.name "functools") "lru_cache")
            [.constE .noneC] [] :: decs), true)
      else (node, r.2)
  | .classDef n body =>
    let r := visitList body
    (.classDef n r.1, r.2)
  | .ifS t b e =>
    let rb := visitList b
    let re := visitList e
    (.ifS t rb.1 re.1, rb.2 || re.2)
  | .whileS t b e =>
    let rb := visitList b
    let re := visitList e
    (.whileS t rb.1 re.1, rb.2 || re.2)
  | .forS tg it b e =>
    let rb := visitList b
    let re := visitList e
    (.forS tg it rb.1 re.1, rb.2 || re.2)
  | s => (s, false)

def visitList : List Stmt → List Stmt × Bool
  | [] => ([], false)
  | s :: ss =>
    let r1 := visitStmt s
    let r2 := visitList ss
    (r1.1 :: r2.1, r1.2 || r2.2)

end

end MemoizationDecorator

namespace FunctoolsImportAdder

/-- FunctoolsImportAdder (rules/recursion_optimization.py): insert the
functools import at the front of the module body unless some top-level
statement already imports functools. -/
def visit (m : List Stmt) : List Stmt :=
  let hasFunctools := m.any (fun stmt =>
    match stmt with
    | .impS names => names.any (fun al => al.1 == "functools")
    | .impFrom md _ => md == "functools"
    | _ => false)
  if hasFunctools then m else .impS [("functools", none)] :: m

end FunctoolsImportAdder

/-- The optimize_recursion entry point of rules/recursion_optimization.py. -/
def optimize_recursion (m : List Stmt) : List Stmt :=
  let m1 := FibonacciToIterative.visitList m
  let m2 := TailRecursionToIteration.visitList m1
  let r := MemoizationDecorator.visitList m2
  if r.2 then FunctoolsImportAdder.visit r.1 else r.1

namespace UnusedImportRemover

/-! UnusedImportRemover (rules/unused_imports.py): an import alias is kept
when its as-name or its imported name is in the used-name set; a statement
none of whose aliases survive is deleted. -/

/-- The alias filter of visit_Import and visit_ImportFrom. -/
def keepAlias (used : List String) (al : String × Option String) : Bool :=
  (match al.2 with
   | some a => used.contains a
   | none => false) || used.contains al.1

mutual

def visitStmt (used : List String) : Stmt → List Stmt
  | .impS names =>
    let newNames := names.filter (keepAlias used)
    if newNames.isEmpty then [] else [.impS newNames]
  | .impFrom md names =>
    let newNames := names.filter (keepAlias used)
    if newNames.isEmpty then [] else [.impFrom md newNames]
  | .functionDef n a body decs => [.functionDef n a (visitList used body) decs]
  | .classDef n body => [.classDef n (visitList used body)]
  | .ifS t b e => [.ifS t (visitList used b) (visitList used e)]
  | .whileS t b e => [.whileS t (visitList used b) (visitList used e)]
  | .forS tg it b e => [.forS tg it (visitList used b) (visitList used e)]
  | s => [s]

def visitList (used : List String) : List Stmt → List Stmt
  | [] => []
  | s :: ss => visitStmt used s ++ visitList used ss

end

end UnusedImportRemover

namespace UnusedFunctionRemover

/-! UnusedFunctionRemover (rules/unused_functions.py): visit_FunctionDef
keeps a function whose name is in the called set and deletes it otherwise;
it never calls generic_visit, so a kept function is returned unchanged,
nested definitions included.  Class bodies have no visitor and are
descended into generically, so methods are candidates. -/

/-- The visit_FunctionDef method. -/
def visit_FunctionDef (called : List String) (node : Stmt) : List Stmt :=
  match node with
  | .functionDef n _ _ _ => if called.contains n then [node] else []
  | s => [s]

mutual

def visitStmt (called : List String) : Stmt → List Stmt
  | node@(.functionDef _ _ _ _) => visit_FunctionDef called node
  | .classDef n body => [.classDef n (visitList called body)]
  | .ifS t b e => [.ifS t (visitList called b) (visitList called e)]
  | .whileS t b e => [.whileS t (visitList called b) (visitList called e)]
  | .forS tg it b e => [.forS tg it (visitList called b) (visitList called e)]
  | s => [s]

def visitList (called : List String) : List Stmt → List Stmt
  | [] => []
  | s :: ss => visitStmt called s ++ visitList called ss

end

end UnusedFunctionRemover

namespace APIRemover

/-! The thin wrapper _APIRemover of rules/remove_unused_apis.py: functions
are handled by delegating to UnusedFunctionRemover.visit_FunctionDef with
the merged used-name set, and a class is kept untouched when its name is
in the set and deleted otherwise (visit_ClassDef never descends). -/

mutual

def visitStmt (used : List String) : Stmt → List Stmt
  | node@(.functionDef _ _ _ _) => UnusedFunctionRemover.visit_FunctionDef used node
  | node@(.classDef n _) => if used.contains n then [node] else []
  | .ifS t b e => [.ifS t (visitList used b) (visitList used e)]
  | .whileS t b e => [.whileS t (visitList used b) (visitList used e)]
  | .forS tg it b e => [.forS tg it (visitList used b) (visitList used e)]
  | s => [s]

def visitList (used : List String) : List Stmt → List Stmt
  | [] => []
  | s :: ss => visitStmt used s ++ visitList used ss

end

end APIRemover

/-- The optimize_remove_unused_apis entry point of
rules/remove_unused_apis.py.  The projectUsedNames parameter models the
result of the file-system scan _collect_project_used_names (the union of
every Name id and every string of a literal module export list across the
parsable project files); the scan itself is an input-output boundary, so
it enters the model as data.  The scan result is then unioned with the
used names of the module tree itself before removal. -/
def optimize_remove_unused_apis (projectUsedNames : List String)
    (m : List Stmt) : List Stmt :=
  let used_names := projectUsedNames ++ collect_used_names m
  APIRemover.visitList used_names m

/-- The optimize pipeline of optimizer.py.  The projectUsedNames parameter
models the project scan of the unconditional optimize_remove_unused_apis
stage; removeUnused is the remove_unused flag, whose source default is
false. -/
def optimize (projectUsedNames : List String) (tree : List Stmt)
    (removeUnused : Bool) : List Stmt :=
  let t1 := ConstantFolder.visit tree
  let t2 := DeadCodeRemover.visitList t1
  let t3 := optimize_conditionals t2
  let t4 := optimize_loops t3
  let t5 := optimize_recursion t4
  let t6 := optimize_remove_unused_apis projectUsedNames t5
  let used_names := collect_used_names t6
  let t7 := UnusedImportRemover.visitList used_names t6
  if removeUnused then
    UnusedFunctionRemover.visitList (collect_called_functions t7) t7
  else t7

/-! Reference interpreter for the modelled Python fragment, used to compare
the behaviour of functions before and after a rewrite.  Evaluation is
fuel-bounded; a none result means an error or fuel exhaustion. -/

abbrev Env := List (String × Const)

/-- A callable function: parameter names and body. -/
structure PyFun where
  params : List String
  body : List Stmt
deriving Repr

abbrev FEnv := List (String × PyFun)

/-- Result of executing a statement: an early return carrying a value, a
continue signal, or normal fall-through with the updated environment. -/
inductive StepR where
  | retV (v : Const)
  | contV (env : Env)
  | nextV (env : Env)
deriving Repr

/-- Python truthiness of a constant. -/
def truthy : Const → Bool
  | .intC n => n != 0
  | .boolC b => b
  | .strC s => s != ""
  | .noneC => false

/-- Python equality on the constant universe (booleans compare equal to
the corresponding integers; values of unrelated kinds compare unequal). -/
def pyEq (a b : Const) : Bool :=
  match a.toIntC, b.toIntC with
  | some x, some y => x == y
  | _, _ =>
    match a, b with
    | .strC s, .strC t => s == t
    | .noneC, .noneC => true
    | _, _ => false

/-- One comparison operator on constants; ordering requires numeric
operands, identity comparisons are out of the modelled fragment. -/
def evalCmpOp (a : Const) (op : CmpOp) (b : Const) : Option Bool :=
  match op with
  | .eq => some (pyEq a b)
  | .ne => some (!pyEq a b)
  | .lt =>
    match a.toIntC, b.toIntC with
    | some x, some y => some (decide (x < y))
    | _, _ => none
  | .le =>
    match a.toIntC, b.toIntC with
    | some x, some y => some (decide (x ≤ y))
    | _, _ => none
  | .gt =>
    match a.toIntC, b.toIntC with
    | some x, some y => some (decide (y < x))
    | _, _ => none
  | .ge =>
    match a.toIntC, b.toIntC with
    | some x, some y => some (decide (y ≤ x))
    | _, _ => none
  | .isOp => none
  | .isNotOp => none

/-- A comparison chain, short-circuiting on the first false link. -/
def evalCompareChain (a : Const) : List CmpOp → List Const → Option Bool
  | [], [] => some true
  | op :: ops, b :: bs => do
    let r ← evalCmpOp a op b
    if r then evalCompareChain b ops bs else some false
  | _, _ => none

/-- Tuple-target binding after the right-hand side has been evaluated. -/
def bindTargets : List Expr → List Const → Env → Option Env
  | [], [], env => some env
  | .name x :: ts, v :: vs, env => bindTargets ts vs ((x, v) :: env)
  | _, _, _ => none

/-- Bind call arguments to parameters: positionally first, then by
keyword; extra positional arguments, keywords that do not name a remaining
parameter, and unbound parameters are errors. -/
def bindParams (params : List String) (posArgs : List Const)
    (kwArgs : List (String × Const)) : Option Env :=
  if posArgs.length > params.length then none
  else if !kwArgs.all (fun kv => (params.drop posArgs.length).contains kv.1) then
    none
  else
    params.enum.mapM (fun ip =>
      match posArgs[ip.1]? with
      | some v => some (ip.2, v)
      | none =>
        match kwArgs.lookup ip.2 with
        | some v => some (ip.2, v)
        | none => none)

mutual

def evalExpr : Nat → FEnv → Env → Expr → Option Const
  | 0, _, _, _ => none
  | Nat.succ fuel, fenv, env, e =>
    match e with
    | .constE c => some c
    | .name i => env.lookup i
    | .binop l op r => do
      let a ← evalExpr fuel fenv env l
      let b ← evalExpr fuel fenv env r
      evalBinOp a op b
    | .unaryop .notU x => do
      let v ← evalExpr fuel fenv env x
      some (.boolC (!truthy v))
    | .unaryop .negU x => do
      let v ← evalExpr fuel fenv env x
      match v.toIntC with
      | some n => some (.intC (-n))
      | none => none
    | .boolop k vs => evalBoolChain fuel fenv env k vs
    | .compare l ops cs => do
      let a ← evalExpr fuel fenv env l
      let bs ← evalExprList fuel fenv env cs
      match evalCompareChain a ops bs with
      | some b => some (.boolC b)
      | none => none
    | .call (.name f) args kws => do
      let argVs ← evalExprList fuel fenv env args
      let kwVs ← evalKwArgs fuel fenv env kws
      let fn ← fenv.lookup f
      let env2 ← bindParams fn.params argVs kwVs
      match ← execStmtList fuel fenv env2 fn.body with
      | .retV v => some v
      | .nextV _ => some .noneC
      | .contV _ => none
    | _ => none

def evalExprList : Nat → FEnv → Env → List Expr → Option (List Const)
  | 0, _, _, _ => none
  | Nat.succ fuel, fenv, env, es =>
    match es with
    | [] => some []
    | e :: rest => do
      let v ← evalExpr fuel fenv env e
      let vs ← evalExprList fuel fenv env rest
      some (v :: vs)

def evalKwArgs : Nat → FEnv → Env → List (Option String × Expr) →
    Option (List (String × Const))
  | 0, _, _, _ => none
  | Nat.succ fuel, fenv, env, kws =>
    match kws with
    | [] => some []
    | (some k, e) :: rest => do
      let v ← evalExpr fuel fenv env e
      let vs ← evalKwArgs fuel fenv env rest
      some ((k, v) :: vs)
    | (none, _) :: _ => none

def evalBoolChain : Nat → FEnv → Env → BoolK → List Expr → Option Const
  | 0, _, _, _, _ => none
  | Nat.succ fuel, fenv, env, k, vs =>
    match vs with
    | [] => none
    | [v] => evalExpr fuel fenv env v
    | v :: rest => do
      let x ← evalExpr fuel fenv env v
      match k with
      | .andK =>
        if truthy x then evalBoolChain fuel fenv env k rest else some x
      | .orK =>
        if truthy x then some x else evalBoolChain fuel fenv env k rest

def execStmt : Nat → FEnv → Env → Stmt → Option StepR
  | 0, _, _, _ => none
  | Nat.succ fuel, fenv, env, s =>
    match s with
    | .pass => some (.nextV env)
    | .continueS => some (.contV env)
    | .ret none => some (.retV .noneC)
    | .ret (some e) => do
      let v ← evalExpr fuel fenv env e
      some (.retV v)
    | .assign [.name x] e => do
      let v ← evalExpr fuel fenv env e
      some (.nextV ((x, v) :: env))
    | .assign [.tuple tgts] (.tuple es) =>
      if tgts.length = es.length then do
        let vs ← evalExprList fuel fenv env es
        let env2 ← bindTargets tgts vs env
        some (.nextV env2)
      else none
    | .assign _ _ => none
    | .exprS e => do
      let _ ← evalExpr fuel fenv env e
      some (.nextV env)
    | .ifS t b orelse => do
      let c ← evalExpr fuel fenv env t
      if truthy c then execStmtList fuel fenv env b
      else execStmtList fuel fenv env orelse
    | .whileS t b orelse => execWhile fuel fenv env t b orelse
    | .forS (.name v) (.call (.name "range") [e] []) b [] => do
      let n ← evalExpr fuel fenv env e
      match n.toIntC with
      | some k => execForRange fuel fenv env v 0 k b
      | none => none
    | _ => none

def execForRange : Nat → FEnv → Env → String → Int → Int → List Stmt →
    Option StepR
  | 0, _, _, _, _, _, _ => none
  | Nat.succ fuel, fenv, env, v, cur, stop, body =>
    if cur < stop then do
      match ← execStmtList fuel fenv ((v, .intC cur) :: env) body with
      | .retV r => some (.retV r)
      | .contV env2 => execForRange fuel fenv env2 v (cur + 1) stop body
      | .nextV env2 => execForRange fuel fenv env2 v (cur + 1) stop body
    else some (.nextV env)

def execWhile : Nat → FEnv → Env → Expr → List Stmt → List Stmt →
    Option StepR
  | 0, _, _, _, _, _ => none
  | Nat.succ fuel, fenv, env, t, body, orelse => do
    let c ← evalExpr fuel fenv env t
    if truthy c then
      match ← execStmtList fuel fenv env body with
      | .retV v => some (.retV v)
      | .contV env2 => execWhile fuel fenv env2 t body orelse
      | .nextV env2 => execWhile fuel fenv env2 t body orelse
    else
      execStmtList fuel fenv env orelse

def execStmtList : Nat → FEnv → Env → List Stmt → Option StepR
  | 0, _, _, _ => none
  | Nat.succ fuel, fenv, env, ss =>
    match ss with
    | [] => some (.nextV env)
    | s :: rest => do
      match ← execStmt fuel fenv env s with
      | .retV v => some (.retV v)
      | .contV env2 => some (.contV env2)
      | .nextV env2 => execStmtList fuel fenv env2 rest

end

/-- The callable functions defined at the top level of a module. -/
def moduleFEnv (m : List Stmt) : FEnv :=
  m.filterMap (fun s =>
    match s with
    | .functionDef n a b _ => some (n, ⟨a, b⟩)
    | _ => none)

/-- Run a top-level function of the module on positional arguments. -/
def runFunction (fuel : Nat) (m : List Stmt) (fname : String)
    (args : List Const) : Option Const := do
  let fenv := moduleFEnv m
  let fn ← fenv.lookup fname
  let env ← bindParams fn.params args []
  match ← execStmtList fuel fenv env fn.body with
  | .retV v => some v
  | .nextV _ => some .noneC
  | .contV _ => none

/-! Syntactic well-formedness: every statement kind with a required
nonempty body (function, class, conditional, loop) must have at least one
body statement, recursively. -/

mutual

def wfStmt : Stmt → Bool
  | .functionDef _ _ body _ => !body.isEmpty && wfStmtList body
  | .classDef _ body => !body.isEmpty && wfStmtList body
  | .ifS _ body orelse => !body.isEmpty && wfStmtList body && wfStmtList orelse
  | .whileS _ body orelse => !body.isEmpty && wfStmtList body && wfStmtList orelse
  | .forS _ _ body orelse => !body.isEmpty && wfStmtList body && wfStmtList orelse
  | _ => true

def wfStmtList : List Stmt → Bool
  | [] => true
  | s :: ss => wfStmt s && wfStmtList ss

end

/-- Names of the top-level function and class definitions of a module. -/
def topDefNames (m : List Stmt) : List String :=
  m.filterMap (fun s =>
    match s with
    | .functionDef n _ _ _ => some n
    | .classDef n _ => some n
    | _ => none)

/-! Deep search for a function definition with a given name, at any
nesting depth. -/

mutual

def containsFuncDefStmt (n : String) : Stmt → Bool
  | .functionDef f _ body _ => f == n || containsFuncDefList n body
  | .classDef _ body => containsFuncDefList n body
  | .ifS _ b e => containsFuncDefList n b || containsFuncDefList n e
  | .whileS _ b e => containsFuncDefList n b || containsFuncDefList n e
  | .forS _ _ b e => containsFuncDefList n b || containsFuncDefList n e
  | _ => false

def containsFuncDefList (n : String) : List Stmt → Bool
  | [] => false
  | s :: ss => containsFuncDefStmt n s || containsFuncDefList n ss

end

/-- Constant-node test on an expression. -/
def Expr.isConstE : Expr → Bool
  | .constE _ => true
  | _ => false

/-- The literal operand that short-circuits a boolean chain of the given
kind: the constant False in an AND, the constant True in an OR. -/
def shortCircuitLit (k : BoolK) (v : Expr) : Bool :=
  match k, v with
  | .andK, .constE c => c == .boolC false
  | .orK, .constE c => c == .boolC true
  | _, _ => false

/-- The short-circuit result literal of a boolean chain kind. -/
def shortValue : BoolK → Expr
  | .andK => .constE (.boolC false)
  | .orK => .constE (.boolC true)

/-- The identity literal of a boolean chain kind. -/
def identityValue : BoolK → Expr
  | .andK => .constE (.boolC true)
  | .orK => .constE (.boolC false)

/-- Modelled from the spec wording of the import-pruning claim: the bound
name of an import alias is the as-name when the binding is aliased, and
otherwise it is the imported name. -/
def specBoundName (al : String × Option String) : String :=
  match al.2 with
  | some a => a
  | none => al.1

/-- The range-over-len iterator shape of the loop rewrite. -/
def rangeLenIter (x : Expr) : Expr :=
  .call (.name "range") [.call (.name "len") [x] []] []

/-! Concrete example programs used to settle the claims. -/

/-- A function whose whole body is a conditional with the constant False
test and no else branch. -/
def exDeadIf : List Stmt :=
  [.functionDef "f" []
    [.ifS (.constE (.boolC false)) [.assign [.name "x"] (.constE (.intC 1))] []]
    []]

/-- A module with one never-referenced top-level function. -/
def funcFoo : Stmt := .functionDef "foo" [] [.pass] []

/-- A module whose only definition is called at top level. -/
def exUsedModule : List Stmt :=
  [funcFoo, .exprS (.call (.name "foo") [] [])]

/-- The recursive call of the accumulator factorial:
f(n - 1, acc * n). -/
def recCallF : Expr :=
  .call (.name "f")
    [.binop (.name "n") .sub (.constE (.intC 1)),
     .binop (.name "acc") .mult (.name "n")] []

/-- Accumulator factorial, tail call in the else branch (case A):
if n == 0 return acc else return f(n - 1, acc * n). -/
def factA : Stmt :=
  .functionDef "f" ["n", "acc"]
    [.ifS (.compare (.name "n") [.eq] [.constE (.intC 0)])
      [.ret (some (.name "acc"))]
      [.ret (some recCallF)]] []

/-- Accumulator factorial, tail call in the then branch (case B):
if n > 0 return f(n - 1, acc * n) else return acc. -/
def factB : Stmt :=
  .functionDef "f" ["n", "acc"]
    [.ifS (.compare (.name "n") [.gt] [.constE (.intC 0)])
      [.ret (some recCallF)]
      [.ret (some (.name "acc"))]] []

/-- Accumulator factorial, tail return after a single-branch conditional
(case C): if n == 0 return acc, then return f(n - 1, acc * n). -/
def factC : Stmt :=
  .functionDef "f" ["n", "acc"]
    [.ifS (.compare (.name "n") [.eq] [.constE (.intC 0)])
      [.ret (some (.name "acc"))] [],
     .ret (some recCallF)] []

/-- A single-parameter function that is not of the two-term recurrence
shape: the base test is n >= 5 and the recursive calls pass n * 2 and n:
if n >= 5 return n, then return g(n * 2) + g(n). -/
def gFun : Stmt :=
  .functionDef "g" ["n"]
    [.ifS (.compare (.name "n") [.ge] [.constE (.intC 5)])
      [.ret (some (.name "n"))] [],
     .ret (some (.binop
       (.call (.name "g") [.binop (.name "n") .mult (.constE (.intC 2))] [])
       .add
       (.call (.name "g") [.name "n"] [])))] []

/-- The iterative function the two-term recurrence rewrite produces for
any matched single-parameter function. -/
def gIter : Stmt :=
  .functionDef "g" ["n"]
    [.assign [.tuple [.name "a", .name "b"]]
      (.tuple [.constE (.intC 0), .constE (.intC 1)]),
     .forS (.name "i") (.call (.name "range") [.name "n"] [])
       [.assign [.tuple [.name "a", .name "b"]]
         (.tuple [.name "b",
           .binop (.name "a") .add (.name "b")])] [],
     .ret (some (.name "a"))] []

/-- The import example of the spec: import a, import b, a used. -/
def exImports : List Stmt :=
  [.impS [("a", none)], .impS [("b", none)],
   .exprS (.call (.name "use") [.name "a"] [])]

/-- A never-called outer function holding a called nested function. -/
def exNested : List Stmt :=
  [.functionDef "f" []
    [.functionDef "g" [] [.pass] [],
     .exprS (.call (.name "g") [] [])] []]

/-! Helper lemmas shared by the claim theorems. -/

theorem uf_visitList_append (called : List String) (xs ys : List Stmt) :
    UnusedFunctionRemover.visitList called (xs ++ ys) =
      UnusedFunctionRemover.visitList called xs ++
        UnusedFunctionRemover.visitList called ys := by
  induction xs with
  | nil => rfl
  | cons s ss ih =>
    simp only [List.cons_append, UnusedFunctionRemover.visitList,
      List.append_eq, ih, List.append_assoc]

theorem uf_visitList_mem (called : List String) (m : List Stmt) (s t : Stmt)
    (hs : s ∈ m) (ht : t ∈ UnusedFunctionRemover.visitStmt called s) :
    t ∈ UnusedFunctionRemover.visitList called m := by
  induction m with
  | nil => cases hs
  | cons x xs ih =>
    rcases List.mem_cons.mp hs with h | h
    · subst h
      simp only [UnusedFunctionRemover.visitList, List.mem_append]
      exact Or.inl ht
    · simp only [UnusedFunctionRemover.visitList, List.mem_append]
      exact Or.inr (ih h)

theorem api_visitList_mem (used : List String) (m : List Stmt) (s t : Stmt)
    (hs : s ∈ m) (ht : t ∈ APIRemover.visitStmt used s) :
    t ∈ APIRemover.visitList used m := by
  induction m with
  | nil => cases hs
  | cons x xs ih =>
    rcases List.mem_cons.mp hs with h | h
    · subst h
      simp only [APIRemover.visitList, List.mem_append]
      exact Or.inl ht
    · simp only [APIRemover.visitList, List.mem_append]
      exact Or.inr (ih h)

/-- Claim C1, counterexample: the input module (a function whose whole
body is a conditional with constant False test and no else branch) is
well-formed, but the dead-code pass empties the function body, producing a
malformed tree instead of leaving the node unchanged. -/
theorem claim_C1_counterexample :
    wfStmtList exDeadIf = true ∧
    DeadCodeRemover.visitList exDeadIf = [.functionDef "f" [] [] []] ∧
    wfStmtList (DeadCodeRemover.visitList exDeadIf) = false :=
  ⟨rfl, rfl, rfl⟩

/-- Claim C1, amended: dead-branch elimination splices the selected branch
into the parent regardless of whether the enclosing body becomes empty,
and while-loop removal likewise deletes the loop; a function whose only
statement was such a conditional or loop ends with an empty, malformed
body, and the pass does not fall back to leaving the node unchanged. -/
theorem claim_C1_theorem :
    ∀ (name : String) (args : List String) (decs : List Expr) (b : List Stmt),
      DeadCodeRemover.visitStmt
          (.functionDef name args [.ifS (.constE (.boolC false)) b []] decs) =
        [.functionDef name args [] decs] ∧
      wfStmt (.functionDef name args [] decs) = false ∧
      LoopOptimizer.visitStmt
          (.functionDef name args
            [.whileS (.constE (.boolC true)) [.pass] []] decs) =
        [.functionDef name args [] decs] := by
  intro name args decs b
  exact ⟨rfl, rfl, rfl⟩

/-- Claim C2, counterexample: with the default flag the pipeline still
removes the never-referenced top-level function foo, so the set of
top-level definitions is not preserved. -/
theorem claim_C2_counterexample :
    optimize [] [funcFoo] false = [] ∧
    topDefNames [funcFoo] = ["foo"] ∧
    topDefNames (optimize [] [funcFoo] false) ≠ topDefNames [funcFoo] :=
  ⟨rfl, rfl, by decide⟩

/-- Claim C2, amended: with the default option the pipeline still runs the
project-wide API pruner, which removes a top-level definition whose name
is in neither the project scan set nor the used names of the module; a
top-level function whose name is in the merged set always survives that
stage, and a module whose definitions are all referenced passes through
the default pipeline intact. -/
theorem claim_C2_theorem :
    (∀ (pu : List String) (m : List Stmt) (n : String) (a : List String)
        (b : List Stmt) (d : List Expr),
      (Stmt.functionDef n a b d) ∈ m →
      (pu ++ collect_used_names m).contains n = true →
      (Stmt.functionDef n a b d) ∈ optimize_remove_unused_apis pu m) ∧
    optimize [] exUsedModule false = exUsedModule ∧
    optimize [] [funcFoo] false = [] := by
  refine ⟨?_, rfl, rfl⟩
  intro pu m n a b d hmem hused
  have step : APIRemover.visitStmt (pu ++ collect_used_names m)
      (.functionDef n a b d) = [.functionDef n a b d] := by
    simp only [APIRemover.visitStmt, UnusedFunctionRemover.visit_FunctionDef]
    rw [hused]
    simp
  unfold optimize_remove_unused_apis
  exact api_visitList_mem (pu ++ collect_used_names m) m _ _ hmem
    (by rw [step]; exact List.mem_singleton.mpr rfl)

/-- Claim C2, witness for the amended theorem at a concrete input. -/
theorem claim_C2_witness :
    funcFoo ∈ optimize_remove_unused_apis ["foo"] [funcFoo] :=
  claim_C2_theorem.1 ["foo"] [funcFoo] "foo" [] [.pass] []
    (by simp [funcFoo]) rfl

/-- Claim C3, code bug: in the else-branch and after-conditional
placements (cases A and C) the rewritten accumulator factorial still
returns 120 on n equal 5, acc equal 1, but in the then-branch placement
(case B) the rewrite keeps the un-negated test as the loop exit condition,
so the rewritten function returns the accumulator immediately: 1 instead
of 120. -/
theorem claim_C3_code_bug :
    runFunction 200 [factA] "f" [.intC 5, .intC 1] = some (.intC 120) ∧
    runFunction 200 (TailRecursionToIteration.visitList [factA]) "f"
      [.intC 5, .intC 1] = some (.intC 120) ∧
    runFunction 200 [factC] "f" [.intC 5, .intC 1] = some (.intC 120) ∧
    runFunction 200 (TailRecursionToIteration.visitList [factC]) "f"
      [.intC 5, .intC 1] = some (.intC 120) ∧
    runFunction 200 [factB] "f" [.intC 5, .intC 1] = some (.intC 120) ∧
    runFunction 200 (TailRecursionToIteration.visitList [factB]) "f"
      [.intC 5, .intC 1] = some (.intC 1) :=
  ⟨rfl, rfl, rfl, rfl, rfl, rfl⟩

/-- Claim C4, code bug: the two-term recurrence matcher never inspects the
conditional test nor the recursive call arguments, so it rewrites the
function gFun, which is not of the claimed shape, into the iterative pair
loop; the original returns 6 on input 6 while the rewritten function
returns 8. -/
theorem claim_C4_code_bug :
    FibonacciToIterative.visitList [gFun] = [gIter] ∧
    runFunction 200 [gFun] "g" [.intC 6] = some (.intC 6) ∧
    runFunction 200 [gIter] "g" [.intC 6] = some (.intC 8) :=
  ⟨rfl, rfl, rfl⟩

/-- The operand scan of visit_BoolOp short-circuits exactly when some
operand is the short-circuiting literal of the chain kind, and otherwise
keeps exactly the operands that are not constant nodes. -/
theorem scanValues_eq (k : BoolK) (vs : List Expr) :
    BooleanExpressionSimplifier.scanValues k vs =
      if vs.any (shortCircuitLit k) then none
      else some (vs.filter (fun v => !v.isConstE)) := by
  induction vs with
  | nil => cases k <;> rfl
  | cons v rest ih =>
    cases v
    case constE c =>
      cases k
      case andK =>
        by_cases h : c = Const.boolC false
        · subst h
          simp [BooleanExpressionSimplifier.scanValues, shortCircuitLit,
            Expr.isConstE]
        · simp [BooleanExpressionSimplifier.scanValues, shortCircuitLit,
            Expr.isConstE, h, ih]
      case orK =>
        by_cases h : c = Const.boolC true
        · subst h
          simp [BooleanExpressionSimplifier.scanValues, shortCircuitLit,
            Expr.isConstE]
        · simp [BooleanExpressionSimplifier.scanValues, shortCircuitLit,
            Expr.isConstE, h, ih]
    all_goals
      cases k <;>
        simp [BooleanExpressionSimplifier.scanValues, shortCircuitLit,
          Expr.isConstE, ih] <;>
        split <;> simp

/-- Claim C5, counterexample: the operand 0 of an AND chain is a literal
constant that is neither an identity literal nor a short-circuiting
literal, yet the simplifier drops it instead of keeping it in place. -/
theorem claim_C5_counterexample :
    BooleanExpressionSimplifier.visitExpr
      (.boolop .andK [.name "x", .constE (.intC 0)]) = .name "x" ∧
    Expr.name "x" ≠ .boolop .andK [.name "x", .constE (.intC 0)] :=
  ⟨rfl, fun h => nomatch h⟩

/-- Claim C5, amended: in an AND chain a literal False operand
short-circuits to False and every other literal constant operand
(including non-boolean constants such as 0 or a string) is dropped;
dually, in an OR chain a literal True short-circuits to True and every
other constant is dropped; an empty residue gives the identity literal and
a singleton residue gives that operand.  The spec examples x and true,
x or false, x and false behave as stated. -/
theorem claim_C5_theorem :
    (∀ (k : BoolK) (vs : List Expr),
      BooleanExpressionSimplifier.visit_BoolOp k vs =
        if vs.any (shortCircuitLit k) then shortValue k
        else
          match vs.filter (fun v => !v.isConstE) with
          | [] => identityValue k
          | [v] => v
          | l => Expr.boolop k l) ∧
    BooleanExpressionSimplifier.visitExpr
      (.boolop .andK [.name "x", .constE (.boolC true)]) = .name "x" ∧
    BooleanExpressionSimplifier.visitExpr
      (.boolop .orK [.name "x", .constE (.boolC false)]) = .name "x" ∧
    BooleanExpressionSimplifier.visitExpr
      (.boolop .andK [.name "x", .constE (.boolC false)]) =
      .constE (.boolC false) := by
  refine ⟨?_, rfl, rfl, rfl⟩
  intro k vs
  by_cases h : vs.any (shortCircuitLit k) = true
  · simp only [BooleanExpressionSimplifier.visit_BoolOp, scanValues_eq, h,
      if_true]
    cases k <;> rfl
  · simp only [BooleanExpressionSimplifier.visit_BoolOp, scanValues_eq, h,
      Bool.false_eq_true, if_false]
    rcases hfil : vs.filter (fun v => !v.isConstE) with _ | ⟨v1, _ | ⟨v2, l⟩⟩ <;>
      cases k <;> rw [hfil] <;> rfl

/-- Claim C6, counterexample: with only the name a in the usage set, the
aliased binding of a under the as-name b is kept by the pruner although
its bound name b is not in the usage set, because the source also accepts
the raw module name. -/
theorem claim_C6_counterexample :
    UnusedImportRemover.visitStmt ["a"] (.impS [("a", some "b")]) =
      [.impS [("a", some "b")]] ∧
    (["a"].contains (specBoundName ("a", some "b"))) = false :=
  ⟨rfl, rfl⟩

/-- Claim C6, amended: an aliased binding is kept when the alias name or
the raw imported name is in the usage set (not only the bound name); an
unaliased binding is kept exactly when its imported name is in the set;
the whole statement is deleted when no binding survives; and the spec
example (import a, import b, only a used) keeps a and removes b. -/
theorem claim_C6_theorem :
    (∀ (used : List String) (nm a : String),
      UnusedImportRemover.keepAlias used (nm, some a) =
        (used.contains a || used.contains nm)) ∧
    (∀ (used : List String) (nm : String),
      UnusedImportRemover.keepAlias used (nm, none) = used.contains nm) ∧
    (∀ (used : List String) (names : List (String × Option String)),
      UnusedImportRemover.visitStmt used (.impS names) =
        if (names.filter (UnusedImportRemover.keepAlias used)).isEmpty then []
        else [.impS (names.filter (UnusedImportRemover.keepAlias used))]) ∧
    UnusedImportRemover.visitList ["use", "a"] exImports =
      [.impS [("a", none)], .exprS (.call (.name "use") [.name "a"] [])] :=
  ⟨fun _ _ _ => rfl, fun _ _ => rfl, fun _ _ => rfl, rfl⟩

/-- Claim C7, counterexample: the called set of the module contains g, and
a function definition named g is present, yet local-mode pruning removes
the never-called outer function together with its nested called g, so no
definition named g survives. -/
theorem claim_C7_counterexample :
    collect_called_functions exNested = ["g"] ∧
    containsFuncDefList "g" exNested = true ∧
    UnusedFunctionRemover.visitList (collect_called_functions exNested)
      exNested = [] ∧
    containsFuncDefList "g"
      (UnusedFunctionRemover.visitList (collect_called_functions exNested)
        exNested) = false :=
  ⟨rfl, rfl, rfl, rfl⟩

/-- Claim C7, amended: every top-level function definition whose name is
in the called set survives local-mode pruning unchanged, and every
top-level class definition survives (with its body pruned); a called
definition nested inside a removed function is removed with it. -/
theorem claim_C7_theorem :
    (∀ (called : List String) (m : List Stmt) (n : String) (a : List String)
        (b : List Stmt) (d : List Expr),
      (Stmt.functionDef n a b d) ∈ m → called.contains n = true →
      (Stmt.functionDef n a b d) ∈ UnusedFunctionRemover.visitList called m) ∧
    (∀ (called : List String) (m : List Stmt) (c : String) (body : List Stmt),
      (Stmt.classDef c body) ∈ m →
      (Stmt.classDef c (UnusedFunctionRemover.visitList called body)) ∈
        UnusedFunctionRemover.visitList called m) := by
  constructor
  · intro called m n a b d hmem hcalled
    refine uf_visitList_mem called m _ _ hmem ?_
    simp only [UnusedFunctionRemover.visitStmt,
      UnusedFunctionRemover.visit_FunctionDef]
    rw [hcalled]
    simp
  · intro called m c body hmem
    refine uf_visitList_mem called m _ _ hmem ?_
    simp [UnusedFunctionRemover.visitStmt]

/-- Claim C7, witness for the amended theorem at concrete inputs. -/
theorem claim_C7_witness :
    (Stmt.functionDef "h" [] [.pass] []) ∈
      UnusedFunctionRemover.visitList ["h"] [.functionDef "h" [] [.pass] []] ∧
    (Stmt.classDef "C" (UnusedFunctionRemover.visitList ["h"] [.pass])) ∈
      UnusedFunctionRemover.visitList ["h"] [.classDef "C" [.pass]] :=
  ⟨claim_C7_theorem.1 ["h"] [.functionDef "h" [] [.pass] []] "h" [] [.pass] []
      (by simp) rfl,
   claim_C7_theorem.2 ["h"] [.classDef "C" [.pass]] "C" [.pass] (by simp)⟩

/-- Claim C8: a binary operation on two constant operands folds to the
constant computed by the evaluator when evaluation succeeds, stays exactly
as it was when evaluation fails (the exception is caught locally), and a
node whose folded operands are not both constants is rebuilt unchanged
around its folded children; with the spec examples 2 + 3, 4 * 5, y + 3 and
the division-by-zero failure 1 // 0. -/
theorem claim_C8_theorem :
    (∀ (a : Const) (op : BOp) (b : Const),
      ConstantFolder.visitExpr (.binop (.constE a) op (.constE b)) =
        match evalBinOp a op b with
        | some v => .constE v
        | none => .binop (.constE a) op (.constE b)) ∧
    (∀ (l : Expr) (op : BOp) (r : Expr),
      (Expr.isConstE (ConstantFolder.visitExpr l) &&
        Expr.isConstE (ConstantFolder.visitExpr r)) = false →
      ConstantFolder.visitExpr (.binop l op r) =
        .binop (ConstantFolder.visitExpr l) op (ConstantFolder.visitExpr r)) ∧
    ConstantFolder.visitExpr
        (.binop (.constE (.intC 2)) .add (.constE (.intC 3)))
      = .constE (.intC 5) ∧
    ConstantFolder.visitExpr
        (.binop (.constE (.intC 4)) .mult (.constE (.intC 5)))
      = .constE (.intC 20) ∧
    ConstantFolder.visitExpr (.binop (.name "y") .add (.constE (.intC 3)))
      = .binop (.name "y") .add (.constE (.intC 3)) ∧
    ConstantFolder.visitExpr
        (.binop (.constE (.intC 1)) .floordiv (.constE (.intC 0)))
      = .binop (.constE (.intC 1)) .floordiv (.constE (.intC 0)) := by
  refine ⟨fun a op b => rfl, ?_, rfl, rfl, rfl, rfl⟩
  intro l op r h
  simp only [ConstantFolder.visitExpr]
  generalize ConstantFolder.visitExpr l = l2 at *
  generalize ConstantFolder.visitExpr r = r2 at *
  cases l2 <;> cases r2 <;> simp_all [Expr.isConstE]

/-- Claim C8, witness at a concrete non-constant input. -/
theorem claim_C8_witness :
    ConstantFolder.visitExpr (.binop (.name "y") .add (.constE (.intC 3))) =
      .binop (ConstantFolder.visitExpr (.name "y")) .add
        (ConstantFolder.visitExpr (.constE (.intC 3))) :=
  claim_C8_theorem.2.1 (.name "y") .add (.constE (.intC 3)) rfl

/-- Claim C9: the range-over-len rewrite never fires: optimize_range_len
is the identity on every statement, because the enabling
check_index_only_usage predicate is constantly false; consequently the
loop visitor keeps a for loop over range(len(x)) intact (up to the
recursive visit of its body and else clause) whenever the visited body is
nonempty. -/
theorem claim_C9_theorem :
    (∀ s : Stmt, LoopOptimizer.optimize_range_len s = s) ∧
    (∀ (tgt x : Expr) (b e : List Stmt),
      LoopOptimizer.visitList b ≠ [] →
      LoopOptimizer.visitStmt (.forS tgt (rangeLenIter x) b e) =
        [.forS tgt (rangeLenIter x) (LoopOptimizer.visitList b)
          (LoopOptimizer.visitList e)]) := by
  have h1 : ∀ s : Stmt, LoopOptimizer.optimize_range_len s = s := by
    intro s
    unfold LoopOptimizer.optimize_range_len
    repeat' split
    all_goals simp_all [LoopOptimizer.check_index_only_usage]
  refine ⟨h1, ?_⟩
  intro tgt x b e hb
  rcases hvb : LoopOptimizer.visitList b with _ | ⟨s0, ss⟩
  · exact absurd hvb hb
  · simp only [LoopOptimizer.visitStmt, hvb]
    simp [h1, hvb]

/-- Claim C9, witness at a concrete loop over range(len(xs)). -/
theorem claim_C9_witness :
    LoopOptimizer.visitStmt
        (.forS (.name "i") (rangeLenIter (.name "xs")) [.pass] []) =
      [.forS (.name "i") (rangeLenIter (.name "xs"))
        (LoopOptimizer.visitList [.pass]) (LoopOptimizer.visitList [])] :=
  claim_C9_theorem.2 (.name "i") (.name "xs") [.pass] [] (fun h => nomatch h)

/-- Claim C10: both pruners return a retained definition without visiting
its children, so every definition nested in a kept function (and, in
project mode, in a kept class) is unchanged; while in local mode a class
body is descended into generically, so a method whose name is absent from
the called set is removed from the class body. -/
theorem claim_C10_theorem :
    (∀ (called : List String) (n : String) (a : List String) (b : List Stmt)
        (d : List Expr), called.contains n = true →
      UnusedFunctionRemover.visitStmt called (.functionDef n a b d) =
        [.functionDef n a b d]) ∧
    (∀ (used : List String) (n : String) (a : List String) (b : List Stmt)
        (d : List Expr), used.contains n = true →
      APIRemover.visitStmt used (.functionDef n a b d) =
        [.functionDef n a b d]) ∧
    (∀ (used : List String) (c : String) (body : List Stmt),
      used.contains c = true →
      APIRemover.visitStmt used (.classDef c body) = [.classDef c body]) ∧
    (∀ (called : List String) (c : String) (pre post : List Stmt) (n : String)
        (a : List String) (b : List Stmt) (d : List Expr),
      called.contains n = false →
      UnusedFunctionRemover.visitStmt called
          (.classDef c (pre ++ .functionDef n a b d :: post)) =
        [.classDef c (UnusedFunctionRemover.visitList called pre ++
          UnusedFunctionRemover.visitList called post)]) := by
  refine ⟨?_, ?_, ?_, ?_⟩
  · intro called n a b d h
    simp only [UnusedFunctionRemover.visitStmt,
      UnusedFunctionRemover.visit_FunctionDef]
    rw [h]
    simp
  · intro used n a b d h
    simp only [APIRemover.visitStmt, UnusedFunctionRemover.visit_FunctionDef]
    rw [h]
    simp
  · intro used c body h
    simp only [APIRemover.visitStmt]
    rw [h]
    simp
  · intro called c pre post n a b d h
    have h2 : n ∉ called := by simpa using h
    simp only [UnusedFunctionRemover.visitStmt]
    rw [uf_visitList_append]
    simp [UnusedFunctionRemover.visitList, UnusedFunctionRemover.visitStmt,
      UnusedFunctionRemover.visit_FunctionDef, h, h2]

/-- Claim C10, witness: a kept function with a nested definition is
returned unchanged, and a method of a class is removed when its name is
not in the called set. -/
theorem claim_C10_witness :
    UnusedFunctionRemover.visitStmt ["h"]
        (.functionDef "h" [] [.functionDef "inner" [] [.pass] []] []) =
      [.functionDef "h" [] [.functionDef "inner" [] [.pass] []] []] ∧
    UnusedFunctionRemover.visitStmt ["h"]
        (.classDef "C" ([] ++ .functionDef "m" [] [.pass] [] :: [])) =
      [.classDef "C" (UnusedFunctionRemover.visitList ["h"] [] ++
        UnusedFunctionRemover.visitList ["h"] [])] :=
  ⟨claim_C10_theorem.1 ["h"] "h" [] [.functionDef "inner" [] [.pass] []] [] rfl,
   claim_C10_theorem.2.2.2 ["h"] "C" [] [] "m" [] [.pass] [] rfl⟩

end ByteMeCarbon
